import Mathlib

/-!
# Verification of the MMU page-replacement simulator core

Shallow embedding of the three page-replacement engines of the repository
(Clock in `clockmmu.py`, LRU in `PythonP2/lrummu.py`, Random in `randmmu.py`)
together with proofs of the specified properties.

Conventions of the embedding:
* Python `dict` reverse maps (`page_to_frame` / `page_table`) are embedded as
  functions `Int → Option Nat` (lookup/update/delete are pointwise).
* Python lists indexed by frame are embedded as Lean `List`s; reads use
  `List.getD` and writes use `List.set`.  On every reachable state the indices
  used are in bounds, so the out-of-range defaults never matter.
* The unbounded `while` loops of the source (`ClockMMU._evict_clock`, the
  retry loop of `RandMMU._choose_victim`) are embedded with explicit fuel and
  return `Option`: `none` models divergence / an uncaught exception of the
  Python code, `some` a normal return.
* Debug printing only writes to stdout and touches no counted state, so it is
  omitted from the state.
-/

namespace MMUSim

/-! ## Clock engine (`clockmmu.py`, identical logic in `PythonP2/clockmmu.py`) -/

/-- State of `ClockMMU`: counters, per-frame arrays, reverse map and hand. -/
structure ClockState where
  frames_capacity : Nat
  page_faults : Nat
  disk_reads : Nat
  disk_writes : Nat
  frame_page : List (Option Int)
  dirty : List Bool
  ref : List Nat
  page_to_frame : Int → Option Nat
  hand : Nat

/-- The constructor `ClockMMU.__init__` for a nonnegative frame count. -/
def clockInit (frames : Nat) : ClockState :=
  { frames_capacity := frames
    page_faults := 0
    disk_reads := 0
    disk_writes := 0
    frame_page := List.replicate frames none
    dirty := List.replicate frames false
    ref := List.replicate frames 0
    page_to_frame := fun _ => none
    hand := 0 }

/-- Index scan of `ClockMMU._find_free_frame`: first `i` in
`range(frames_capacity)` with `frame_page[i] is None`. -/
def findFreeAux (fp : List (Option Int)) : Nat → Nat → Option Nat
  | 0, _ => none
  | fuel + 1, i => if fp.getD i (some 0) = none then some i else findFreeAux fp fuel (i + 1)

/-- The method `ClockMMU._find_free_frame`. -/
def clockFindFreeFrame (s : ClockState) : Option Nat :=
  findFreeAux s.frame_page s.frames_capacity 0

/-- The method `ClockMMU._install`. -/
def clockInstall (s : ClockState) (frame_idx : Nat) (page : Int) (is_write : Bool) :
    ClockState :=
  { s with
    frame_page := s.frame_page.set frame_idx (some page)
    page_to_frame := fun p => if p = page then some frame_idx else s.page_to_frame p
    dirty := s.dirty.set frame_idx is_write
    ref := s.ref.set frame_idx 1 }

/-- The sweep `ClockMMU._evict_clock`, one inspection per unit of fuel.  Each loop
iteration examines `frame_page[hand]`: an occupied frame with `ref == 0` is
evicted (write-back accounting, map/occupancy/dirty cleared, hand advanced
once more); an occupied frame with `ref != 0` gets its reference bit cleared;
the hand then advances.  `none` models the nonterminating sweep. -/
def evictClock : ClockState → Nat → Option (Nat × ClockState)
  | _, 0 => none
  | s, fuel + 1 =>
    match s.frame_page.getD s.hand none with
    | some victim_page =>
      if s.ref.getD s.hand 0 = 0 then
        some (s.hand,
          { s with
            disk_writes := if s.dirty.getD s.hand false then s.disk_writes + 1 else s.disk_writes
            page_to_frame := fun p => if p = victim_page then none else s.page_to_frame p
            frame_page := s.frame_page.set s.hand none
            dirty := s.dirty.set s.hand false
            hand := (s.hand + 1) % s.frames_capacity })
      else
        evictClock
          { s with
            ref := s.ref.set s.hand 0
            hand := (s.hand + 1) % s.frames_capacity } fuel
    | none =>
      evictClock { s with hand := (s.hand + 1) % s.frames_capacity } fuel

/-- The method `ClockMMU._access`.  Hit: set dirty on write, set the reference bit.
Miss: count the fault and the disk read, then install into a free frame or
into the victim of the clock sweep. -/
def clockAccess (s : ClockState) (page : Int) (is_write : Bool) (fuel : Nat) :
    Option ClockState :=
  match s.page_to_frame page with
  | some frame =>
    some { s with
           dirty := if is_write then s.dirty.set frame true else s.dirty
           ref := s.ref.set frame 1 }
  | none =>
    let s1 : ClockState :=
      { s with page_faults := s.page_faults + 1, disk_reads := s.disk_reads + 1 }
    match clockFindFreeFrame s1 with
    | some free_idx => some (clockInstall s1 free_idx page is_write)
    | none =>
      match evictClock s1 fuel with
      | some (victim_idx, s2) => some (clockInstall s2 victim_idx page is_write)
      | none => none

/-- A trace of accesses processed via `read_memory` / `write_memory`
(`true` = write).  The sweep gets `2 * capacity` fuel, which the termination
theorem shows is enough on every reachable eviction. -/
def clockRun : ClockState → List (Bool × Int) → Option ClockState
  | s, [] => some s
  | s, (w, p) :: rest =>
    match clockAccess s p w (2 * s.frames_capacity) with
    | some s1 => clockRun s1 rest
    | none => none

/-! ## LRU engine (`PythonP2/lrummu.py`) -/

/-- State of `LruMMU`. -/
structure LruState where
  frames : Nat
  page_table : Int → Option Nat
  frame_table : List (Option Int)
  dirty_bits : List Bool
  access_time : List Nat
  free_frames : List Nat
  current_time : Nat
  disk_reads : Nat
  disk_writes : Nat
  page_faults : Nat

/-- The constructor `LruMMU.__init__` for a nonnegative frame count. -/
def lruInit (frames : Nat) : LruState :=
  { frames := frames
    page_table := fun _ => none
    frame_table := List.replicate frames none
    dirty_bits := List.replicate frames false
    access_time := List.replicate frames 0
    free_frames := List.range frames
    current_time := 0
    disk_reads := 0
    disk_writes := 0
    page_faults := 0 }

/-- Loop body of `LruMMU._find_lru_victim`: iterate `i` over the remaining
`fuel` indices carrying `oldest` (the running minimum stamp, `none` standing
for the infinity sentinel the Python code starts from) and `best` (the running victim index).
An occupied frame with a strictly smaller stamp replaces the running pair. -/
def lruVictimGo (ft : List (Option Int)) (ts : List Nat) :
    Nat → Nat → Option Nat → Nat → Nat
  | 0, _, _, best => best
  | fuel + 1, i, oldest, best =>
    if (ft.getD i none).isSome &&
        (match oldest with
         | none => true
         | some o => decide (ts.getD i 0 < o)) then
      lruVictimGo ft ts fuel (i + 1) (some (ts.getD i 0)) i
    else
      lruVictimGo ft ts fuel (i + 1) oldest best

/-- The method `LruMMU._find_lru_victim`: scan all frame indices for the occupied frame
with the minimum `access_time`, first minimum kept. -/
def findLruVictim (s : LruState) : Nat :=
  lruVictimGo s.frame_table s.access_time s.frames 0 none 0

/-- The method `LruMMU._handle_page_fault`.  Counts the fault and the read, advances the
clock once more, takes the first free frame if any, otherwise evicts the LRU
victim (write-back accounting, old page removed from `page_table`), then
installs the new page.  `none` models the `KeyError` the Python code would
raise if the victim frame were unoccupied (unreachable in normal use). -/
def lruHandlePageFault (s : LruState) (page : Int) (is_write : Bool) :
    Option LruState :=
  let s1 : LruState :=
    { s with
      page_faults := s.page_faults + 1
      disk_reads := s.disk_reads + 1
      current_time := s.current_time + 1 }
  match s1.free_frames with
  | frame_index :: rest =>
    some { s1 with
           free_frames := rest
           frame_table := s1.frame_table.set frame_index (some page)
           page_table := fun p => if p = page then some frame_index else s1.page_table p
           dirty_bits := s1.dirty_bits.set frame_index is_write
           access_time := s1.access_time.set frame_index s1.current_time }
  | [] =>
    let frame_index := findLruVictim s1
    match s1.frame_table.getD frame_index none with
    | none => none
    | some old_page =>
      let s2 : LruState :=
        if s1.dirty_bits.getD frame_index false then
          { s1 with disk_writes := s1.disk_writes + 1 }
        else s1
      let s3 : LruState :=
        { s2 with page_table := fun p => if p = old_page then none else s2.page_table p }
      some { s3 with
             frame_table := s3.frame_table.set frame_index (some page)
             page_table := fun p => if p = page then some frame_index else s3.page_table p
             dirty_bits := s3.dirty_bits.set frame_index is_write
             access_time := s3.access_time.set frame_index s3.current_time }

/-- The method `LruMMU.read_memory`: advance the clock, then hit (restamp the frame) or
fault. -/
def lruReadMemory (s : LruState) (page : Int) : Option LruState :=
  let s1 : LruState := { s with current_time := s.current_time + 1 }
  match s1.page_table page with
  | some frame_index =>
    some { s1 with access_time := s1.access_time.set frame_index s1.current_time }
  | none => lruHandlePageFault s1 page false

/-- The method `LruMMU.write_memory`: advance the clock, then hit (set dirty, restamp)
or fault with `is_write`. -/
def lruWriteMemory (s : LruState) (page : Int) : Option LruState :=
  let s1 : LruState := { s with current_time := s.current_time + 1 }
  match s1.page_table page with
  | some frame_index =>
    some { s1 with
           dirty_bits := s1.dirty_bits.set frame_index true
           access_time := s1.access_time.set frame_index s1.current_time }
  | none => lruHandlePageFault s1 page true

/-- Trace processing for the LRU engine (`true` = write). -/
def lruRun : LruState → List (Bool × Int) → Option LruState
  | s, [] => some s
  | s, (w, p) :: rest =>
    match (if w then lruWriteMemory s p else lruReadMemory s p) with
    | some s1 => lruRun s1 rest
    | none => none

/-! ## Random engine (`randmmu.py`) -/

/-- One frame entry of `RandMMU`: the dict `{"page": ..., "dirty": ...}`. -/
structure RandEntry where
  page : Int
  dirty : Bool

/-- State of `RandMMU`. -/
structure RandState where
  num_frames : Nat
  frames : List (Option RandEntry)
  page_to_frame : Int → Option Nat
  disk_reads : Nat
  disk_writes : Nat
  page_faults : Nat
  free : List Nat

/-- The constructor `RandMMU.__init__` for a nonnegative frame count. -/
def randInit (frames : Nat) : RandState :=
  { num_frames := frames
    frames := List.replicate frames none
    page_to_frame := fun _ => none
    disk_reads := 0
    disk_writes := 0
    page_faults := 0
    free := List.range frames }

/-- Retry loop of `RandMMU._choose_victim` for `num_frames >= 2`: draw
indices from the random stream until an occupied frame comes up.  `rolls` is
the (finite window of the) stream of `random.randrange(0, num_frames)`
outputs; `none` models exhausting it without finding an occupied frame. -/
def randChooseLoop (frames : List (Option RandEntry)) : List Nat → Option Nat
  | [] => none
  | idx :: rest =>
    if (frames.getD idx none).isSome then some idx else randChooseLoop frames rest

/-- The method `RandMMU._choose_victim`: frame `0` when `num_frames <= 1`, otherwise the
first occupied index drawn from the random stream. -/
def randChooseVictim (s : RandState) (rolls : List Nat) : Option Nat :=
  if s.num_frames ≤ 1 then some 0 else randChooseLoop s.frames rolls

/-- The method `RandMMU._evict`: if the frame is occupied, count a disk write when
dirty, drop its page from `page_to_frame` (guarded by the `in` check of the
source), and clear the frame. -/
def randEvict (s : RandState) (idx : Nat) : RandState :=
  match s.frames.getD idx none with
  | none => s
  | some entry =>
    let s1 : RandState :=
      if entry.dirty then { s with disk_writes := s.disk_writes + 1 } else s
    let s2 : RandState :=
      if (s1.page_to_frame entry.page).isSome then
        { s1 with page_to_frame := fun p => if p = entry.page then none else s1.page_to_frame p }
      else s1
    { s2 with frames := s2.frames.set idx none }

/-- Install path at the end of `RandMMU._access`: count the disk read, store
the entry, update the reverse map; the source then redundantly re-marks the
entry dirty on writes (guarded by a `not None` check). -/
def randInstall (s : RandState) (idx : Nat) (page : Int) (is_write : Bool) : RandState :=
  let s1 : RandState :=
    { s with
      disk_reads := s.disk_reads + 1
      frames := s.frames.set idx (some { page := page, dirty := is_write })
      page_to_frame := fun p => if p = page then some idx else s.page_to_frame p }
  if is_write then
    match s1.frames.getD idx none with
    | some entry => { s1 with frames := s1.frames.set idx (some { entry with dirty := true }) }
    | none => s1
  else s1

/-- The method `RandMMU._access`.  Hit: possibly set the dirty flag of the entry (a
missing entry returns silently).  Miss: count the fault, use the head of the
free list if nonempty, otherwise pick a random occupied victim, evict it and
reuse its frame; finally install. -/
def randAccess (s : RandState) (page : Int) (is_write : Bool) (rolls : List Nat) :
    Option RandState :=
  match s.page_to_frame page with
  | some idx =>
    match s.frames.getD idx none with
    | some entry =>
      some { s with
             frames := s.frames.set idx
               (some { entry with dirty := if is_write then true else entry.dirty }) }
    | none => some s
  | none =>
    let s1 : RandState := { s with page_faults := s.page_faults + 1 }
    match s1.free with
    | idx :: rest => some (randInstall { s1 with free := rest } idx page is_write)
    | [] =>
      match randChooseVictim s1 rolls with
      | some idx => some (randInstall (randEvict s1 idx) idx page is_write)
      | none => none

/-- Trace processing for the Random engine: each event carries its access
kind (`true` = write), page, and the window of random draws available to the
victim-selection loop of that access. -/
def randRun : RandState → List (Bool × Int × List Nat) → Option RandState
  | s, [] => some s
  | s, (w, p, rolls) :: rest =>
    match randAccess s p w rolls with
    | some s1 => randRun s1 rest
    | none => none

/-! ## Constructors over `Int`, as the Python code runs them

The `__init__` methods accept any integer.  `[None] * k` yields the empty
list for `k <= 0` (that is, `max k 0 = Int.toNat k` elements) and
`list(range(k))` likewise; no constructor has a failure path, which these
embeddings record by always returning `Except.ok` (an `Except.error` would
model an exception escaping `__init__`). -/

/-- State of `ClockMMU` as built by `__init__` from a raw integer argument. -/
structure ClockStateZ where
  frames_capacity : Int
  page_faults : Nat
  disk_reads : Nat
  disk_writes : Nat
  frame_page : List (Option Int)
  dirty : List Bool
  ref : List Nat
  hand : Nat

/-- The constructor `ClockMMU.__init__(frames)` for an arbitrary integer argument. -/
def clockInitZ (frames : Int) : Except Unit ClockStateZ :=
  Except.ok
    { frames_capacity := frames
      page_faults := 0
      disk_reads := 0
      disk_writes := 0
      frame_page := List.replicate frames.toNat none
      dirty := List.replicate frames.toNat false
      ref := List.replicate frames.toNat 0
      hand := 0 }

/-- State of `LruMMU` as built by `__init__` from a raw integer argument
(`self.frames` stores the argument unconverted). -/
structure LruStateZ where
  frames : Int
  frame_table : List (Option Int)
  dirty_bits : List Bool
  access_time : List Nat
  free_frames : List Nat
  current_time : Nat
  disk_reads : Nat
  disk_writes : Nat
  page_faults : Nat

/-- The constructor `LruMMU.__init__(frames)` for an arbitrary integer argument. -/
def lruInitZ (frames : Int) : Except Unit LruStateZ :=
  Except.ok
    { frames := frames
      frame_table := List.replicate frames.toNat none
      dirty_bits := List.replicate frames.toNat false
      access_time := List.replicate frames.toNat 0
      free_frames := List.range frames.toNat
      current_time := 0
      disk_reads := 0
      disk_writes := 0
      page_faults := 0 }

/-- State of `RandMMU` as built by `__init__` from a raw integer argument. -/
structure RandStateZ where
  num_frames : Int
  frames : List (Option RandEntry)
  disk_reads : Nat
  disk_writes : Nat
  page_faults : Nat
  free : List Nat

/-- The constructor `RandMMU.__init__(frames)` for an arbitrary integer argument. -/
def randInitZ (frames : Int) : Except Unit RandStateZ :=
  Except.ok
    { num_frames := frames
      frames := List.replicate frames.toNat none
      disk_reads := 0
      disk_writes := 0
      page_faults := 0
      free := List.range frames.toNat }

/-! ## Derived observations used by the statements -/

/-- Number of occupied slots of a frame array. -/
def countSome (l : List (Option α)) : Nat :=
  l.countP (fun o => o.isSome)

/-- Number of set reference bits (nonzero entries). -/
def countNZ (l : List Nat) : Nat :=
  l.countP (fun x => x != 0)

/-- The distinct pages resident in a Clock/LRU frame array. -/
def residentPages (l : List (Option Int)) : Finset Int :=
  (l.filterMap id).toFinset

/-- The distinct pages resident in a Random frame array. -/
def residentPagesR (l : List (Option RandEntry)) : Finset Int :=
  (l.filterMap (fun o => o.map RandEntry.page)).toFinset

/-- Example Clock state: capacity 2 after one faulting write of page 7
(equals `clockRun (clockInit 2) [(true, 7)]`). -/
def clockHitExample : ClockState :=
  { frames_capacity := 2
    page_faults := 1
    disk_reads := 1
    disk_writes := 0
    frame_page := [some 7, none]
    dirty := [true, false]
    ref := [1, 0]
    page_to_frame := fun p => if p = 7 then some 0 else none
    hand := 0 }

/-- Example LRU state: capacity 2 after one faulting write of page 7
(equals `lruRun (lruInit 2) [(true, 7)]`). -/
def lruHitExample : LruState :=
  { frames := 2
    page_table := fun p => if p = 7 then some 0 else none
    frame_table := [some 7, none]
    dirty_bits := [true, false]
    access_time := [2, 0]
    free_frames := [1]
    current_time := 2
    disk_reads := 1
    disk_writes := 0
    page_faults := 1 }

/-- Example Random state: capacity 2 after one faulting write of page 7
(equals `randRun (randInit 2) [(true, 7, [])]`). -/
def randHitExample : RandState :=
  { num_frames := 2
    frames := [some { page := 7, dirty := true }, none]
    page_to_frame := fun p => if p = 7 then some 0 else none
    disk_reads := 1
    disk_writes := 0
    page_faults := 1
    free := [1] }

/-- Well-formedness of a Clock state for capacity `n`: the three per-frame
arrays have `n` entries and the hand is in range.  Holds at `clockInit n`
for `n ≥ 1` and is preserved by every access. -/
def ClockWF (n : Nat) (s : ClockState) : Prop :=
  s.frames_capacity = n ∧ s.frame_page.length = n ∧ s.dirty.length = n ∧
    s.ref.length = n ∧ s.hand < n

/-- Bookkeeping invariant of the Random engine for capacity `n`: the frame
array has `n` entries, the free list holds in-range indices without
duplicates, and a frame is unoccupied exactly when its index is free. -/
def RandInv (n : Nat) (s : RandState) : Prop :=
  s.num_frames = n ∧ s.frames.length = n ∧ (∀ i, i ∈ s.free → i < n) ∧
    s.free.Nodup ∧ (∀ i, i < n → (s.frames.getD i none = none ↔ i ∈ s.free))

/-! ## List access helper lemmas -/

theorem getD_set_self {l : List α} {i : Nat} (a d : α) (h : i < l.length) :
    (l.set i a).getD i d = a := by
  simp [List.getD_eq_getElem?_getD, List.getElem?_set_self h]

theorem getD_set_ne {l : List α} {i j : Nat} (a d : α) (h : i ≠ j) :
    (l.set i a).getD j d = l.getD j d := by
  simp [List.getD_eq_getElem?_getD, List.getElem?_set_ne h]

theorem getD_irrel {l : List α} {i : Nat} (d e : α) (h : i < l.length) :
    l.getD i d = l.getD i e := by
  simp [List.getD_eq_getElem?_getD, List.getElem?_eq_getElem h]

theorem lt_length_of_getD_some {l : List (Option α)} {i : Nat} {a : α}
    (h : l.getD i none = some a) : i < l.length := by
  by_contra hge
  rw [List.getD_eq_getElem?_getD, List.getElem?_eq_none (Nat.le_of_not_lt hge)] at h
  exact Option.noConfusion h

theorem lt_length_of_getD_nz {l : List Nat} {i : Nat}
    (h : l.getD i 0 ≠ 0) : i < l.length := by
  by_contra hge
  rw [List.getD_eq_getElem?_getD, List.getElem?_eq_none (Nat.le_of_not_lt hge)] at h
  exact h rfl

theorem getD_eq_getElem {l : List α} {i : Nat} (d : α) (h : i < l.length) :
    l.getD i d = l[i] := by
  simp [List.getD_eq_getElem?_getD, List.getElem?_eq_getElem h]

/-- Effect of `List.set` on `countP`, in subtraction-free form. -/
theorem countP_set (p : α → Bool) :
    ∀ (l : List α) (i : Nat) (a : α), i < l.length →
      (l.set i a).countP p + (if p (l.getD i a) then 1 else 0) =
        l.countP p + (if p a then 1 else 0)
  | [], i, a, h => absurd h (by simp)
  | x :: xs, 0, a, _ => by
    simp only [List.set, List.getD_cons_zero, List.countP_cons]
    omega
  | x :: xs, i + 1, a, h => by
    have hlt : i < xs.length := by simpa using h
    have := countP_set p xs i a hlt
    simp only [List.set, List.getD_cons_succ, List.countP_cons]
    omega

theorem countSome_le_length (l : List (Option α)) : countSome l ≤ l.length :=
  List.countP_le_length _

theorem countSome_set_some_ge (l : List (Option α)) (i : Nat) (a : α) :
    countSome l ≤ countSome (l.set i (some a)) := by
  rcases Nat.lt_or_ge i l.length with h | h
  · have key := countP_set (fun o => o.isSome) l i (some a) h
    unfold countSome
    cases hx : l.getD i (some a) with
    | none => rw [hx] at key; simp only [Option.isSome_none, Option.isSome_some,
        Bool.false_eq_true, if_false, if_true] at key; omega
    | some y => rw [hx] at key; simp only [Option.isSome_some, if_true] at key; omega
  · rw [List.set_eq_of_length_le h]

theorem countSome_set_some_of_none {l : List (Option α)} {i : Nat} (a : α)
    (h : l.getD i none = none) (hlt : i < l.length) :
    countSome (l.set i (some a)) = countSome l + 1 := by
  have hd : l.getD i (some a) = none := by rw [getD_irrel (some a) none hlt, h]
  have := countP_set (fun o => o.isSome) l i (some a) hlt
  rw [hd] at this
  unfold countSome
  simpa using this

theorem countSome_set_none_of_some {l : List (Option α)} {i : Nat} {x : α}
    (h : l.getD i none = some x) :
    countSome (l.set i none) + 1 = countSome l := by
  have hlt : i < l.length := lt_length_of_getD_some h
  have hd : l.getD i none = some x := h
  have := countP_set (fun o => o.isSome) l i none hlt
  rw [hd] at this
  unfold countSome
  simpa using this

theorem countSome_set_some_of_some {l : List (Option α)} {i : Nat} {x : α}
    (h : l.getD i none = some x) (a : α) :
    countSome (l.set i (some a)) = countSome l := by
  have hlt : i < l.length := lt_length_of_getD_some h
  have hd : l.getD i (some a) = some x := by rw [getD_irrel (some a) none hlt, h]
  have := countP_set (fun o => o.isSome) l i (some a) hlt
  rw [hd] at this
  unfold countSome
  simpa using this

theorem countNZ_set_zero {l : List Nat} {i : Nat}
    (h : l.getD i 0 ≠ 0) :
    countNZ (l.set i 0) + 1 = countNZ l := by
  have hlt : i < l.length := lt_length_of_getD_nz h
  have key := countP_set (fun x => x != 0) l i 0 hlt
  simp only [] at key
  rw [if_pos (show (l.getD i 0 != 0) = true by simpa [bne_iff_ne] using h)] at key
  rw [if_neg (show ¬ (((0 : Nat) != 0) = true) by simp)] at key
  unfold countNZ
  omega

theorem countNZ_le_length (l : List Nat) : countNZ l ≤ l.length :=
  List.countP_le_length _

theorem isSome_getD_of_full {l : List (Option α)}
    (h : countSome l = l.length) {i : Nat} (hi : i < l.length) :
    (l.getD i none).isSome := by
  have := List.countP_eq_length.mp h l[i] (List.getElem_mem hi)
  rw [getD_eq_getElem none hi]
  exact this

/-! ## Trace preservation combinators -/

theorem clockRun_preserves {P : ClockState → Prop}
    (hstep : ∀ s page w fuel s1, P s → clockAccess s page w fuel = some s1 → P s1) :
    ∀ (tr : List (Bool × Int)) (s s1 : ClockState), P s → clockRun s tr = some s1 → P s1
  | [], s, s1, hP, h => by
    simp only [clockRun] at h
    cases h
    exact hP
  | (w, p) :: rest, s, s1, hP, h => by
    simp only [clockRun] at h
    cases hacc : clockAccess s p w (2 * s.frames_capacity) with
    | none => rw [hacc] at h; cases h
    | some s2 =>
      rw [hacc] at h
      exact clockRun_preserves hstep rest s2 s1 (hstep s p w _ s2 hP hacc) h

theorem lruRun_preserves {P : LruState → Prop}
    (hread : ∀ s page s1, P s → lruReadMemory s page = some s1 → P s1)
    (hwrite : ∀ s page s1, P s → lruWriteMemory s page = some s1 → P s1) :
    ∀ (tr : List (Bool × Int)) (s s1 : LruState), P s → lruRun s tr = some s1 → P s1
  | [], s, s1, hP, h => by
    simp only [lruRun] at h
    cases h
    exact hP
  | (w, p) :: rest, s, s1, hP, h => by
    simp only [lruRun] at h
    cases hacc : (if w then lruWriteMemory s p else lruReadMemory s p) with
    | none => rw [hacc] at h; cases h
    | some s2 =>
      rw [hacc] at h
      refine lruRun_preserves hread hwrite rest s2 s1 ?_ h
      cases w with
      | true => exact hwrite s p s2 hP (by simpa using hacc)
      | false => exact hread s p s2 hP (by simpa using hacc)

theorem randRun_preserves {P : RandState → Prop}
    (hstep : ∀ s page w rolls s1, P s → randAccess s page w rolls = some s1 → P s1) :
    ∀ (tr : List (Bool × Int × List Nat)) (s s1 : RandState), P s → randRun s tr = some s1 → P s1
  | [], s, s1, hP, h => by
    simp only [randRun] at h
    cases h
    exact hP
  | (w, p, rolls) :: rest, s, s1, hP, h => by
    simp only [randRun] at h
    cases hacc : randAccess s p w rolls with
    | none => rw [hacc] at h; cases h
    | some s2 =>
      rw [hacc] at h
      exact randRun_preserves hstep rest s2 s1 (hstep s p w rolls s2 hP hacc) h

/-! ## Characterization of the clock sweep -/

/-- What `_evict_clock` does when it returns: the victim frame was occupied
(by page `p`) and had reference bit `0`; afterwards its slot is cleared, its
dirty bit is false, `p` is gone from the reverse map and no other page moved;
the fault/read counters are untouched and `disk_writes` grew exactly when the
victim was dirty. -/
theorem evictClock_spec :
    ∀ (fuel : Nat) (s : ClockState) (v : Nat) (s2 : ClockState),
      evictClock s fuel = some (v, s2) →
      ∃ p, s.frame_page.getD v none = some p ∧
        s2.frame_page = s.frame_page.set v none ∧
        s2.dirty = s.dirty.set v false ∧
        s2.ref.getD v 0 = 0 ∧
        s2.page_to_frame p = none ∧
        (∀ q, q ≠ p → s2.page_to_frame q = s.page_to_frame q) ∧
        s2.disk_reads = s.disk_reads ∧
        s2.page_faults = s.page_faults ∧
        s2.frames_capacity = s.frames_capacity ∧
        s2.ref.length = s.ref.length ∧
        s2.disk_writes = (if s.dirty.getD v false then s.disk_writes + 1 else s.disk_writes)
  | 0, s, v, s2, h => by cases h
  | fuel + 1, s, v, s2, h => by
    simp only [evictClock] at h
    split at h
    case h_1 victim_page hfp =>
      split at h
      case isTrue href =>
        cases h
        refine ⟨victim_page, hfp, rfl, rfl, href, by simp, ?_, rfl, rfl, rfl, rfl, rfl⟩
        intro q hq
        simp [hq]
      case isFalse href =>
        obtain ⟨p, h1, h2, h3, h4, h5, h6, h7, h8, h9, h10, h11⟩ :=
          evictClock_spec fuel _ v s2 h
        refine ⟨p, h1, h2, h3, h4, h5, h6, h7, h8, h9, ?_, h11⟩
        simpa [List.length_set] using h10
    case h_2 hfp =>
      obtain ⟨p, h1, h2, h3, h4, h5, h6, h7, h8, h9, h10, h11⟩ :=
        evictClock_spec fuel _ v s2 h
      exact ⟨p, h1, h2, h3, h4, h5, h6, h7, h8, h9, h10, h11⟩

/-! ## Basic per-access effects (counters, array length, occupancy) -/

theorem clockAccess_basic {s s1 : ClockState} {page : Int} {w : Bool} {fuel : Nat}
    (h : clockAccess s page w fuel = some s1) :
    s1.frames_capacity = s.frames_capacity ∧
    s1.frame_page.length = s.frame_page.length ∧
    countSome s.frame_page ≤ countSome s1.frame_page ∧
    (s.disk_reads = s.page_faults → s1.disk_reads = s1.page_faults) := by
  simp only [clockAccess] at h
  split at h
  · -- resident hit: only dirty / ref touched
    cases h
    exact ⟨rfl, rfl, Nat.le_refl _, fun hp => hp⟩
  · -- page fault
    split at h
    · -- free frame available
      cases h
      refine ⟨rfl, by simp [clockInstall], ?_, fun hp => ?_⟩
      · exact countSome_set_some_ge s.frame_page _ page
      · simp only [clockInstall]
        omega
    · -- eviction
      split at h
      · rename_i v s2 hevict
        cases h
        obtain ⟨p, h1, h2, _h3, _h4, _h5, _h6, h7, h8, h9, _h10, _h11⟩ :=
          evictClock_spec fuel _ v s2 hevict
        have hvlt : v < s.frame_page.length := lt_length_of_getD_some h1
        have hdec : countSome s2.frame_page + 1 = countSome s.frame_page := by
          rw [h2]; exact countSome_set_none_of_some h1
        have hnone : s2.frame_page.getD v none = none := by
          rw [h2]; exact getD_set_self none none hvlt
        have hvlt2 : v < s2.frame_page.length := by
          rw [h2, List.length_set]; exact hvlt
        have hinc := countSome_set_some_of_none (l := s2.frame_page) page hnone hvlt2
        refine ⟨h9, ?_, ?_, fun hp => ?_⟩
        · simp only [clockInstall, List.length_set, h2]
        · simp only [clockInstall]
          omega
        · simp only [clockInstall, h7, h8]
          omega
      · cases h

theorem lruFault_basic {s s1 : LruState} {page : Int} {w : Bool}
    (h : lruHandlePageFault s page w = some s1) :
    s1.frames = s.frames ∧
    s1.frame_table.length = s.frame_table.length ∧
    countSome s.frame_table ≤ countSome s1.frame_table ∧
    s1.disk_reads = s.disk_reads + 1 ∧
    s1.page_faults = s.page_faults + 1 ∧
    s1.current_time = s.current_time + 1 := by
  simp only [lruHandlePageFault] at h
  split at h
  · -- free frame
    cases h
    exact ⟨rfl, by simp, countSome_set_some_ge _ _ _, rfl, rfl, rfl⟩
  · -- eviction
    split at h
    · cases h
    · rename_i old_page _
      split at h <;> cases h <;>
        exact ⟨rfl, by simp, countSome_set_some_ge _ _ _, rfl, rfl, rfl⟩

theorem lruRead_basic {s s1 : LruState} {page : Int}
    (h : lruReadMemory s page = some s1) :
    s1.frames = s.frames ∧
    s1.frame_table.length = s.frame_table.length ∧
    countSome s.frame_table ≤ countSome s1.frame_table ∧
    (s.disk_reads = s.page_faults → s1.disk_reads = s1.page_faults) := by
  simp only [lruReadMemory] at h
  split at h
  · cases h
    exact ⟨rfl, rfl, Nat.le_refl _, fun hp => hp⟩
  · obtain ⟨h1, h2, h3, h4, h5, _⟩ := lruFault_basic h
    have h1a : s1.frames = s.frames := h1
    have h2a : s1.frame_table.length = s.frame_table.length := h2
    have h3a : countSome s.frame_table ≤ countSome s1.frame_table := h3
    have h4a : s1.disk_reads = s.disk_reads + 1 := h4
    have h5a : s1.page_faults = s.page_faults + 1 := h5
    exact ⟨h1a, h2a, h3a, fun hp => by omega⟩

theorem lruWrite_basic {s s1 : LruState} {page : Int}
    (h : lruWriteMemory s page = some s1) :
    s1.frames = s.frames ∧
    s1.frame_table.length = s.frame_table.length ∧
    countSome s.frame_table ≤ countSome s1.frame_table ∧
    (s.disk_reads = s.page_faults → s1.disk_reads = s1.page_faults) := by
  simp only [lruWriteMemory] at h
  split at h
  · cases h
    exact ⟨rfl, rfl, Nat.le_refl _, fun hp => hp⟩
  · obtain ⟨h1, h2, h3, h4, h5, _⟩ := lruFault_basic h
    have h1a : s1.frames = s.frames := h1
    have h2a : s1.frame_table.length = s.frame_table.length := h2
    have h3a : countSome s.frame_table ≤ countSome s1.frame_table := h3
    have h4a : s1.disk_reads = s.disk_reads + 1 := h4
    have h5a : s1.page_faults = s.page_faults + 1 := h5
    exact ⟨h1a, h2a, h3a, fun hp => by omega⟩

theorem randInstall_basic (s : RandState) (idx : Nat) (page : Int) (w : Bool) :
    (randInstall s idx page w).num_frames = s.num_frames ∧
    (randInstall s idx page w).frames.length = s.frames.length ∧
    countSome s.frames ≤ countSome (randInstall s idx page w).frames ∧
    (randInstall s idx page w).disk_reads = s.disk_reads + 1 ∧
    (randInstall s idx page w).page_faults = s.page_faults ∧
    (randInstall s idx page w).disk_writes = s.disk_writes := by
  simp only [randInstall]
  split
  · split
    · rename_i entry hentry
      refine ⟨rfl, by simp, ?_, rfl, rfl, rfl⟩
      calc countSome s.frames ≤ countSome (s.frames.set idx (some ⟨page, w⟩)) :=
            countSome_set_some_ge _ _ _
        _ ≤ _ := countSome_set_some_ge _ _ _
    · exact ⟨rfl, by simp, countSome_set_some_ge _ _ _, rfl, rfl, rfl⟩
  · exact ⟨rfl, by simp, countSome_set_some_ge _ _ _, rfl, rfl, rfl⟩

theorem randInstall_count_exact {s : RandState} {idx : Nat} (page : Int) (w : Bool)
    (h : s.frames.getD idx none = none) (hlt : idx < s.frames.length) :
    countSome (randInstall s idx page w).frames = countSome s.frames + 1 := by
  simp only [randInstall]
  have hfirst :
      countSome (s.frames.set idx (some { page := page, dirty := w })) =
        countSome s.frames + 1 :=
    countSome_set_some_of_none _ h hlt
  split
  · split
    · rename_i entry hentry
      rw [countSome_set_some_of_some (l := s.frames.set idx (some { page := page, dirty := w }))
        (x := entry) hentry _]
      exact hfirst
    · exact hfirst
  · exact hfirst

theorem randEvict_basic (s : RandState) (idx : Nat) :
    (randEvict s idx).num_frames = s.num_frames ∧
    (randEvict s idx).frames.length = s.frames.length ∧
    countSome (randEvict s idx).frames + (if (s.frames.getD idx none).isSome then 1 else 0) =
      countSome s.frames ∧
    (randEvict s idx).disk_reads = s.disk_reads ∧
    (randEvict s idx).page_faults = s.page_faults ∧
    (randEvict s idx).free = s.free := by
  simp only [randEvict]
  split
  · rename_i hentry
    rw [hentry]
    exact ⟨rfl, rfl, by simp, rfl, rfl, rfl⟩
  · rename_i entry hentry
    rw [hentry]
    have hdec : countSome (s.frames.set idx none) + 1 = countSome s.frames :=
      countSome_set_none_of_some hentry
    split
    · split
      · exact ⟨rfl, by simp, by simpa using hdec, rfl, rfl, rfl⟩
      · exact ⟨rfl, by simp, by simpa using hdec, rfl, rfl, rfl⟩
    · split
      · exact ⟨rfl, by simp, by simpa using hdec, rfl, rfl, rfl⟩
      · exact ⟨rfl, by simp, by simpa using hdec, rfl, rfl, rfl⟩

theorem randAccess_basic {s s1 : RandState} {page : Int} {w : Bool} {rolls : List Nat}
    (h : randAccess s page w rolls = some s1) :
    s1.num_frames = s.num_frames ∧
    s1.frames.length = s.frames.length ∧
    countSome s.frames ≤ countSome s1.frames ∧
    (s.disk_reads = s.page_faults → s1.disk_reads = s1.page_faults) := by
  simp only [randAccess] at h
  split at h
  · -- resident in the map
    split at h
    · -- entry present: dirty flag rewritten in place
      rename_i entry hentry
      cases h
      have hlt : _ < s.frames.length := lt_length_of_getD_some hentry
      refine ⟨rfl, by simp, ?_, fun hp => hp⟩
      exact countSome_set_some_ge _ _ _
    · cases h
      exact ⟨rfl, rfl, Nat.le_refl _, fun hp => hp⟩
  · -- fault
    split at h
    · -- free list nonempty
      rename_i idx rest hfree
      cases h
      obtain ⟨b1, b2, b3, b4, b5, _⟩ := randInstall_basic
        { s with page_faults := s.page_faults + 1, free := rest } idx page w
      have c1 : (randInstall { s with page_faults := s.page_faults + 1, free := rest }
          idx page w).num_frames = s.num_frames := b1
      have c2 : (randInstall { s with page_faults := s.page_faults + 1, free := rest }
          idx page w).frames.length = s.frames.length := b2
      have c3 : countSome s.frames ≤ countSome (randInstall
          { s with page_faults := s.page_faults + 1, free := rest } idx page w).frames := b3
      have c4 : (randInstall { s with page_faults := s.page_faults + 1, free := rest }
          idx page w).disk_reads = s.disk_reads + 1 := b4
      have c5 : (randInstall { s with page_faults := s.page_faults + 1, free := rest }
          idx page w).page_faults = s.page_faults + 1 := b5
      exact ⟨c1, c2, c3, fun hp => by omega⟩
    · -- eviction
      split at h
      · rename_i idx hvict
        cases h
        set sb : RandState := { s with page_faults := s.page_faults + 1 } with hsb
        obtain ⟨e1, e2, e3, e4, e5, _⟩ := randEvict_basic sb idx
        obtain ⟨b1, b2, b3, b4, b5, _⟩ := randInstall_basic (randEvict sb idx) idx page w
        have e1a : (randEvict sb idx).num_frames = s.num_frames := e1
        have e2a : (randEvict sb idx).frames.length = s.frames.length := e2
        have e4a : (randEvict sb idx).disk_reads = s.disk_reads := e4
        have e5a : (randEvict sb idx).page_faults = s.page_faults + 1 := e5
        refine ⟨by rw [b1, e1a], by rw [b2, e2a], ?_, fun hp => by omega⟩
        have hsf : sb.frames = s.frames := rfl
        rw [hsf] at e3
        cases hocc : s.frames.getD idx none with
        | none =>
          rw [hocc] at e3
          simp only [Option.isSome_none, Bool.false_eq_true, if_false, Nat.add_zero] at e3
          rw [← e3]
          exact b3
        | some entry =>
          rw [hocc] at e3
          simp only [Option.isSome_some, if_true] at e3
          have hlt : idx < s.frames.length := lt_length_of_getD_some (by rw [hocc])
          have hev_frames : (randEvict sb idx).frames.getD idx none = none := by
            simp only [randEvict, hsf, hocc]
            split <;> split <;>
              exact getD_set_self none none (by simpa using hlt)
          have hlt2 : idx < (randEvict sb idx).frames.length := by rw [e2, hsf]; exact hlt
          have hexact := randInstall_count_exact page w hev_frames hlt2
          omega
      · cases h

/-! ## C1: disk reads equal page faults -/

/-- C1: for every engine (Clock, LRU, Random), every capacity ≥ 1 and every
finite access trace, after processing the trace the total disk-read counter
equals the total page-fault counter. -/
theorem disk_reads_eq_page_faults (n : Nat) (hn : 1 ≤ n) :
    (∀ tr s, clockRun (clockInit n) tr = some s → s.disk_reads = s.page_faults) ∧
    (∀ tr s, lruRun (lruInit n) tr = some s → s.disk_reads = s.page_faults) ∧
    (∀ tr s, randRun (randInit n) tr = some s → s.disk_reads = s.page_faults) := by
  refine ⟨fun tr s h => ?_, fun tr s h => ?_, fun tr s h => ?_⟩
  · exact clockRun_preserves (P := fun t => t.disk_reads = t.page_faults)
      (fun t p w fuel t1 hP hacc => (clockAccess_basic hacc).2.2.2 hP) tr _ s rfl h
  · exact lruRun_preserves (P := fun t => t.disk_reads = t.page_faults)
      (fun t p t1 hP hacc => (lruRead_basic hacc).2.2.2 hP)
      (fun t p t1 hP hacc => (lruWrite_basic hacc).2.2.2 hP) tr _ s rfl h
  · exact randRun_preserves (P := fun t => t.disk_reads = t.page_faults)
      (fun t p w rolls t1 hP hacc => (randAccess_basic hacc).2.2.2 hP) tr _ s rfl h

/-- Witness for C1 at capacity 2 on concrete traces that include hits, faults
and (for Random) an eviction through the retry loop. -/
theorem disk_reads_eq_page_faults_witness :
    (clockRun (clockInit 2) [(false, 1), (true, 2), (false, 3)]).map
        ClockState.disk_reads =
      (clockRun (clockInit 2) [(false, 1), (true, 2), (false, 3)]).map
        ClockState.page_faults ∧
    (lruRun (lruInit 2) [(false, 1), (true, 2), (false, 3)]).map
        LruState.disk_reads =
      (lruRun (lruInit 2) [(false, 1), (true, 2), (false, 3)]).map
        LruState.page_faults ∧
    (randRun (randInit 2) [(false, 1, []), (true, 2, []), (false, 3, [0])]).map
        RandState.disk_reads =
      (randRun (randInit 2) [(false, 1, []), (true, 2, []), (false, 3, [0])]).map
        RandState.page_faults := by
  have hc : clockRun (clockInit 2) [(false, 1), (true, 2), (false, 3)] = some _ := rfl
  have hl : lruRun (lruInit 2) [(false, 1), (true, 2), (false, 3)] = some _ := rfl
  have hr : randRun (randInit 2) [(false, 1, []), (true, 2, []), (false, 3, [0])] = some _ := rfl
  have h1 := (disk_reads_eq_page_faults 2 (by decide)).1 _ _ hc
  have h2 := (disk_reads_eq_page_faults 2 (by decide)).2.1 _ _ hl
  have h3 := (disk_reads_eq_page_faults 2 (by decide)).2.2 _ _ hr
  refine ⟨?_, ?_, ?_⟩
  · rw [hc]; simpa using h1
  · rw [hl]; simpa using h2
  · rw [hr]; simpa using h3

/-! ## C8: resident pages never exceed capacity -/

/-- C8: for every engine, every capacity ≥ 1 and every prefix of every trace
(`run` applied to a prefix), the number of distinct resident pages — and
equivalently the number of occupied frames — never exceeds the capacity fixed
at construction. -/
theorem resident_pages_le_capacity (n : Nat) (hn : 1 ≤ n) :
    (∀ tr s, clockRun (clockInit n) tr = some s →
      (residentPages s.frame_page).card ≤ n ∧ countSome s.frame_page ≤ n) ∧
    (∀ tr s, lruRun (lruInit n) tr = some s →
      (residentPages s.frame_table).card ≤ n ∧ countSome s.frame_table ≤ n) ∧
    (∀ tr s, randRun (randInit n) tr = some s →
      (residentPagesR s.frames).card ≤ n ∧ countSome s.frames ≤ n) := by
  have cardBound : ∀ (l : List (Option Int)), l.length = n →
      (residentPages l).card ≤ n ∧ countSome l ≤ n := by
    intro l hl
    constructor
    · calc (residentPages l).card ≤ (l.filterMap id).length := List.toFinset_card_le _
        _ ≤ l.length := List.length_filterMap_le _ _
        _ = n := hl
    · calc countSome l ≤ l.length := countSome_le_length l
        _ = n := hl
  have cardBoundR : ∀ (l : List (Option RandEntry)), l.length = n →
      (residentPagesR l).card ≤ n ∧ countSome l ≤ n := by
    intro l hl
    constructor
    · calc (residentPagesR l).card ≤ (l.filterMap _).length := List.toFinset_card_le _
        _ ≤ l.length := List.length_filterMap_le _ _
        _ = n := hl
    · calc countSome l ≤ l.length := countSome_le_length l
        _ = n := hl
  refine ⟨fun tr s h => ?_, fun tr s h => ?_, fun tr s h => ?_⟩
  · exact cardBound _ (clockRun_preserves (P := fun t => t.frame_page.length = n)
      (fun t p w fuel t1 hP hacc => ((clockAccess_basic hacc).2.1).trans hP)
      tr _ s (by simp [clockInit]) h)
  · exact cardBound _ (lruRun_preserves (P := fun t => t.frame_table.length = n)
      (fun t p t1 hP hacc => ((lruRead_basic hacc).2.1).trans hP)
      (fun t p t1 hP hacc => ((lruWrite_basic hacc).2.1).trans hP)
      tr _ s (by simp [lruInit]) h)
  · exact cardBoundR _ (randRun_preserves (P := fun t => t.frames.length = n)
      (fun t p w rolls t1 hP hacc => ((randAccess_basic hacc).2.1).trans hP)
      tr _ s (by simp [randInit]) h)

/-- Witness for C8 at capacity 2 on traces touching 3 distinct pages. -/
theorem resident_pages_le_capacity_witness :
    ((clockRun (clockInit 2) [(false, 1), (true, 2), (false, 3)]).map
      (fun s => decide ((residentPages s.frame_page).card ≤ 2 ∧
        countSome s.frame_page ≤ 2))) = some true ∧
    ((lruRun (lruInit 2) [(false, 1), (true, 2), (false, 3)]).map
      (fun s => decide ((residentPages s.frame_table).card ≤ 2 ∧
        countSome s.frame_table ≤ 2))) = some true ∧
    ((randRun (randInit 2) [(false, 1, []), (true, 2, []), (false, 3, [1])]).map
      (fun s => decide ((residentPagesR s.frames).card ≤ 2 ∧
        countSome s.frames ≤ 2))) = some true := by
  have hc : clockRun (clockInit 2) [(false, 1), (true, 2), (false, 3)] = some _ := rfl
  have hl : lruRun (lruInit 2) [(false, 1), (true, 2), (false, 3)] = some _ := rfl
  have hr : randRun (randInit 2) [(false, 1, []), (true, 2, []), (false, 3, [1])] = some _ := rfl
  have h1 := (resident_pages_le_capacity 2 (by decide)).1 _ _ hc
  have h2 := (resident_pages_le_capacity 2 (by decide)).2.1 _ _ hl
  have h3 := (resident_pages_le_capacity 2 (by decide)).2.2 _ _ hr
  refine ⟨?_, ?_, ?_⟩
  · rw [hc]; simpa using h1
  · rw [hl]; simpa using h2
  · rw [hr]; simpa using h3

/-! ## C10: occupancy never decreases -/

/-- C10: for every engine the number of occupied frames is monotonically
non-decreasing along any completed run (every eviction is immediately
followed by an install into the freed frame within the same access), the
frame-array size is constant, and once all frames are occupied memory stays
full. -/
theorem occupied_frames_monotone :
    (∀ s tr s1, clockRun s tr = some s1 →
      countSome s.frame_page ≤ countSome s1.frame_page ∧
      s1.frame_page.length = s.frame_page.length ∧
      (countSome s.frame_page = s.frame_page.length →
        countSome s1.frame_page = s1.frame_page.length)) ∧
    (∀ s tr s1, lruRun s tr = some s1 →
      countSome s.frame_table ≤ countSome s1.frame_table ∧
      s1.frame_table.length = s.frame_table.length ∧
      (countSome s.frame_table = s.frame_table.length →
        countSome s1.frame_table = s1.frame_table.length)) ∧
    (∀ s tr s1, randRun s tr = some s1 →
      countSome s.frames ≤ countSome s1.frames ∧
      s1.frames.length = s.frames.length ∧
      (countSome s.frames = s.frames.length →
        countSome s1.frames = s1.frames.length)) := by
  refine ⟨fun s tr s1 h => ?_, fun s tr s1 h => ?_, fun s tr s1 h => ?_⟩
  · have main := clockRun_preserves
      (P := fun t => countSome s.frame_page ≤ countSome t.frame_page ∧
        t.frame_page.length = s.frame_page.length)
      (fun t p w fuel t1 hP hacc =>
        ⟨Nat.le_trans hP.1 (clockAccess_basic hacc).2.2.1,
         ((clockAccess_basic hacc).2.1).trans hP.2⟩)
      tr s s1 ⟨Nat.le_refl _, rfl⟩ h
    exact ⟨main.1, main.2, fun hfull => Nat.le_antisymm
      (countSome_le_length s1.frame_page)
      (le_trans (le_of_eq (main.2.trans hfull.symm)) main.1)⟩
  · have main := lruRun_preserves
      (P := fun t => countSome s.frame_table ≤ countSome t.frame_table ∧
        t.frame_table.length = s.frame_table.length)
      (fun t p t1 hP hacc =>
        ⟨Nat.le_trans hP.1 (lruRead_basic hacc).2.2.1,
         ((lruRead_basic hacc).2.1).trans hP.2⟩)
      (fun t p t1 hP hacc =>
        ⟨Nat.le_trans hP.1 (lruWrite_basic hacc).2.2.1,
         ((lruWrite_basic hacc).2.1).trans hP.2⟩)
      tr s s1 ⟨Nat.le_refl _, rfl⟩ h
    exact ⟨main.1, main.2, fun hfull => Nat.le_antisymm
      (countSome_le_length s1.frame_table)
      (le_trans (le_of_eq (main.2.trans hfull.symm)) main.1)⟩
  · have main := randRun_preserves
      (P := fun t => countSome s.frames ≤ countSome t.frames ∧
        t.frames.length = s.frames.length)
      (fun t p w rolls t1 hP hacc =>
        ⟨Nat.le_trans hP.1 (randAccess_basic hacc).2.2.1,
         ((randAccess_basic hacc).2.1).trans hP.2⟩)
      tr s s1 ⟨Nat.le_refl _, rfl⟩ h
    exact ⟨main.1, main.2, fun hfull => Nat.le_antisymm
      (countSome_le_length s1.frames)
      (le_trans (le_of_eq (main.2.trans hfull.symm)) main.1)⟩

/-- Witness for C10: the three engines applied to a concrete 4-access trace
at capacity 2; occupancy grows from the empty initial state and the array
size is unchanged. -/
theorem occupied_frames_monotone_witness :
    ((clockRun (clockInit 2) [(false, 1), (true, 2), (false, 3), (true, 4)]).map
      (fun s => decide (countSome (clockInit 2).frame_page ≤ countSome s.frame_page ∧
        s.frame_page.length = (clockInit 2).frame_page.length ∧
        countSome s.frame_page = 2))) = some true ∧
    ((lruRun (lruInit 2) [(false, 1), (true, 2), (false, 3), (true, 4)]).map
      (fun s => decide (countSome (lruInit 2).frame_table ≤ countSome s.frame_table ∧
        s.frame_table.length = (lruInit 2).frame_table.length ∧
        countSome s.frame_table = 2))) = some true ∧
    ((randRun (randInit 2) [(false, 1, []), (true, 2, []), (false, 3, [0]), (true, 4, [1])]).map
      (fun s => decide (countSome (randInit 2).frames ≤ countSome s.frames ∧
        s.frames.length = (randInit 2).frames.length ∧
        countSome s.frames = 2))) = some true := by
  have hc : clockRun (clockInit 2) [(false, 1), (true, 2), (false, 3), (true, 4)] = some _ := rfl
  have hl : lruRun (lruInit 2) [(false, 1), (true, 2), (false, 3), (true, 4)] = some _ := rfl
  have hr : randRun (randInit 2)
      [(false, 1, []), (true, 2, []), (false, 3, [0]), (true, 4, [1])] = some _ := rfl
  have h1 := occupied_frames_monotone.1 _ _ _ hc
  have h2 := occupied_frames_monotone.2.1 _ _ _ hl
  have h3 := occupied_frames_monotone.2.2 _ _ _ hr
  refine ⟨?_, ?_, ?_⟩
  · rw [hc]
    exact congrArg some (decide_eq_true ⟨h1.1, h1.2.1, by decide⟩)
  · rw [hl]
    exact congrArg some (decide_eq_true ⟨h2.1, h2.2.1, by decide⟩)
  · rw [hr]
    exact congrArg some (decide_eq_true ⟨h3.1, h3.2.1, by decide⟩)

/-! ## C2: the clock sweep terminates within 2 × capacity inspections -/

theorem findFreeAux_none (fp : List (Option Int)) :
    ∀ (fuel i : Nat), findFreeAux fp fuel i = none →
      ∀ j, i ≤ j → j < i + fuel → fp.getD j (some 0) ≠ none
  | 0, i, _, j, hij, hlt => absurd (Nat.lt_of_le_of_lt hij hlt) (by omega)
  | fuel + 1, i, h, j, hij, hlt => by
    simp only [findFreeAux] at h
    split at h
    · exact absurd h (by simp)
    · rename_i hne
      rcases Nat.eq_or_lt_of_le hij with heq | hlt2
      · exact heq ▸ hne
      · exact findFreeAux_none fp fuel (i + 1) h j hlt2 (by omega)

theorem clockFindFreeFrame_none_all_occupied {n : Nat} {s : ClockState}
    (hcap : s.frames_capacity = n) (hlen : s.frame_page.length = n)
    (h : clockFindFreeFrame s = none) :
    ∀ i, i < n → (s.frame_page.getD i none).isSome = true := by
  intro i hi
  have hne := findFreeAux_none s.frame_page s.frames_capacity 0 h i (Nat.zero_le i)
    (by omega)
  have hlt : i < s.frame_page.length := by omega
  rw [getD_irrel (some 0) none hlt] at hne
  cases hx : s.frame_page.getD i none with
  | none => exact absurd hx hne
  | some _ => rfl

theorem evictClock_succeeds (n : Nat) (hn : 1 ≤ n) :
    ∀ (fuel : Nat) (s : ClockState),
      s.frames_capacity = n → s.frame_page.length = n → s.hand < n →
      (∀ i, i < n → (s.frame_page.getD i none).isSome = true) →
      countNZ s.ref < fuel →
      (evictClock s fuel).isSome = true
  | 0, s, _, _, _, _, hfuel => absurd hfuel (by omega)
  | fuel + 1, s, hcap, hlen, hhand, hocc, hfuel => by
    simp only [evictClock]
    split
    · split
      · simp
      · rename_i href
        have hcount := countNZ_set_zero href
        exact evictClock_succeeds n hn fuel
          { s with ref := s.ref.set s.hand 0, hand := (s.hand + 1) % s.frames_capacity }
          hcap hlen
          (show (s.hand + 1) % s.frames_capacity < n by
            rw [hcap]; exact Nat.mod_lt (s.hand + 1) (by omega))
          hocc
          (show countNZ (s.ref.set s.hand 0) < fuel by omega)
    · rename_i hfp
      have hsome := hocc s.hand hhand
      rw [hfp] at hsome
      cases hsome

/-- C2: for the Clock engine at any capacity ≥ 1, whenever eviction is
invoked (a page fault with `_find_free_frame` returning `None`, so every
frame is occupied), the clock sweep finds a victim within at most
`2 × capacity` frame inspections, for every state of the reference bits. -/
theorem clock_evict_terminates (n : Nat) (hn : 1 ≤ n) (s : ClockState)
    (hwf : ClockWF n s) (hfree : clockFindFreeFrame s = none) :
    (evictClock s (2 * n)).isSome = true := by
  obtain ⟨hcap, hlen, _hdlen, hrlen, hhand⟩ := hwf
  have hocc := clockFindFreeFrame_none_all_occupied hcap hlen hfree
  have hbound : countNZ s.ref ≤ n := hrlen ▸ countNZ_le_length s.ref
  exact evictClock_succeeds n hn (2 * n) s hcap hlen hhand hocc (by omega)

/-- Witness for C2: a full 2-frame clock state (both reference bits set, the
worst case) whose sweep succeeds with fuel 4. -/
theorem clock_evict_terminates_witness :
    ClockWF 2 ((clockRun (clockInit 2) [(false, 1), (true, 2)]).getD (clockInit 2)) ∧
    clockFindFreeFrame ((clockRun (clockInit 2) [(false, 1), (true, 2)]).getD (clockInit 2)) =
      none ∧
    (evictClock ((clockRun (clockInit 2) [(false, 1), (true, 2)]).getD (clockInit 2))
      (2 * 2)).isSome = true := by
  refine ⟨⟨rfl, rfl, rfl, rfl, by decide⟩, rfl, ?_⟩
  exact clock_evict_terminates 2 (by decide)
    ((clockRun (clockInit 2) [(false, 1), (true, 2)]).getD (clockInit 2))
    ⟨rfl, rfl, rfl, rfl, by decide⟩ rfl

/-! ## C6: eviction clears the victim frame -/

/-- C6: for the Clock engine, when the sweep evicts a victim frame and before
the new page is installed, the victim frame is unoccupied, its dirty flag is
false, its reference bit is 0, and its former page has been removed from the
page-to-frame mapping. -/
theorem clock_evict_clears_frame (n : Nat) (s : ClockState) (fuel v : Nat)
    (s2 : ClockState) (hwf : ClockWF n s) (h : evictClock s fuel = some (v, s2)) :
    s2.frame_page.getD v none = none ∧
    s2.dirty.getD v false = false ∧
    s2.ref.getD v 0 = 0 ∧
    (∀ p, s.frame_page.getD v none = some p → s2.page_to_frame p = none) := by
  obtain ⟨hcap, hlen, hdlen, _hrlen, _hhand⟩ := hwf
  obtain ⟨p, h1, h2, h3, h4, h5, _h6, _h7, _h8, _h9, _h10, _h11⟩ :=
    evictClock_spec fuel s v s2 h
  have hvlt : v < s.frame_page.length := lt_length_of_getD_some h1
  have hvd : v < s.dirty.length := by omega
  refine ⟨?_, ?_, h4, ?_⟩
  · rw [h2]; exact getD_set_self none none hvlt
  · rw [h3]; exact getD_set_self false false hvd
  · intro q hq
    rw [h1] at hq
    cases hq
    exact h5

/-- Witness for C6: evicting from a full 2-frame clock state with a clean
victim (page 1 in frame 0). -/
theorem clock_evict_clears_frame_witness :
    ((evictClock ((clockRun (clockInit 2) [(false, 1), (true, 2)]).getD (clockInit 2)) 4).map
      (fun r => decide (r.2.frame_page.getD r.1 none = none ∧
        r.2.dirty.getD r.1 false = false ∧
        r.2.ref.getD r.1 0 = 0 ∧
        r.2.page_to_frame 1 = none))) = some true := by
  have he : evictClock ((clockRun (clockInit 2) [(false, 1), (true, 2)]).getD (clockInit 2)) 4 =
    some _ := rfl
  have h := clock_evict_clears_frame 2
    ((clockRun (clockInit 2) [(false, 1), (true, 2)]).getD (clockInit 2)) 4 _ _
    ⟨rfl, rfl, rfl, rfl, by decide⟩ he
  rw [he]
  exact congrArg some (decide_eq_true ⟨h.1, h.2.1, h.2.2.1, h.2.2.2 1 rfl⟩)

/-! ## C3: the LRU victim has the minimum stamp, first minimum kept -/

/-- Loop invariant proof for `_find_lru_victim`: scanning indices
`i, …, i+fuel-1` with running minimum `oldest` (`none` = infinity) and
running victim `best` returns an occupied index whose stamp is minimal among
all occupied indices below `i + fuel`, the first such index in scan order. -/
theorem lruVictimGo_spec (ft : List (Option Int)) (ts : List Nat) :
    ∀ (fuel i : Nat) (oldest : Option Nat) (best : Nat),
      (match oldest with
       | none => ∀ j, j < i → ¬ ((ft.getD j none).isSome = true)
       | some o => best < i ∧ (ft.getD best none).isSome = true ∧
           ts.getD best 0 = o ∧
           (∀ j, j < i → (ft.getD j none).isSome = true → o ≤ ts.getD j 0) ∧
           (∀ j, j < i → (ft.getD j none).isSome = true → ts.getD j 0 = o → best ≤ j)) →
      (oldest = none → ∃ j, i ≤ j ∧ j < i + fuel ∧ (ft.getD j none).isSome = true) →
      ((ft.getD (lruVictimGo ft ts fuel i oldest best) none).isSome = true ∧
       (∀ j, j < i + fuel → (ft.getD j none).isSome = true →
         ts.getD (lruVictimGo ft ts fuel i oldest best) 0 ≤ ts.getD j 0) ∧
       (∀ j, j < i + fuel → (ft.getD j none).isSome = true →
         ts.getD j 0 = ts.getD (lruVictimGo ft ts fuel i oldest best) 0 →
         lruVictimGo ft ts fuel i oldest best ≤ j))
  | 0, i, oldest, best, hinv, hex => by
    cases oldest with
    | none =>
      obtain ⟨j, hij, hj, _⟩ := hex rfl
      omega
    | some o =>
      obtain ⟨hbi, hocc, hts, hmin, htie⟩ := hinv
      simp only [lruVictimGo]
      exact ⟨hocc, fun j hj hjocc => hts ▸ hmin j (by omega) hjocc,
        fun j hj hjocc hje => htie j (by omega) hjocc (by omega)⟩
  | fuel + 1, i, oldest, best, hinv, hex => by
    cases oldest with
    | none =>
      cases hocc : (ft.getD i none).isSome with
      | true =>
        have hstep : lruVictimGo ft ts (fuel + 1) i none best =
            lruVictimGo ft ts fuel (i + 1) (some (ts.getD i 0)) i := by
          simp [lruVictimGo, hocc, -List.getD_eq_getElem?_getD]
        rw [hstep]
        have hres := lruVictimGo_spec ft ts fuel (i + 1) (some (ts.getD i 0)) i
          (by
            refine ⟨by omega, hocc, rfl, ?_, ?_⟩
            · intro j hj hjocc
              rcases Nat.lt_or_ge j i with hji | hji
              · exact absurd hjocc (hinv j hji)
              · have : j = i := by omega
                subst this
                exact Nat.le_refl _
            · intro j hj hjocc _
              rcases Nat.lt_or_ge j i with hji | hji
              · exact absurd hjocc (hinv j hji)
              · omega)
          (by intro hcon; cases hcon)
        exact ⟨hres.1, fun j hj => hres.2.1 j (by omega),
          fun j hj => hres.2.2 j (by omega)⟩
      | false =>
        have hstep : lruVictimGo ft ts (fuel + 1) i none best =
            lruVictimGo ft ts fuel (i + 1) none best := by
          simp [lruVictimGo, hocc, -List.getD_eq_getElem?_getD]
        rw [hstep]
        have hres := lruVictimGo_spec ft ts fuel (i + 1) none best
          (by
            intro j hj
            rcases Nat.lt_or_ge j i with hji | hji
            · exact hinv j hji
            · have : j = i := by omega
              subst this
              intro hcon
              rw [hcon] at hocc
              simp at hocc)
          (by
            intro _
            obtain ⟨j, hij, hj, hjocc⟩ := hex rfl
            have hne : j ≠ i := by
              intro hji
              subst hji
              rw [hocc] at hjocc
              cases hjocc
            exact ⟨j, by omega, by omega, hjocc⟩)
        exact ⟨hres.1, fun j hj => hres.2.1 j (by omega),
          fun j hj => hres.2.2 j (by omega)⟩
    | some o =>
      obtain ⟨hbi, hbocc, hbts, hmin, htie⟩ := hinv
      cases hocc : (ft.getD i none).isSome with
      | true =>
        by_cases hlt : ts.getD i 0 < o
        · have hstep : lruVictimGo ft ts (fuel + 1) i (some o) best =
              lruVictimGo ft ts fuel (i + 1) (some (ts.getD i 0)) i := by
            simp [lruVictimGo, hocc, hlt, -List.getD_eq_getElem?_getD]
          rw [hstep]
          have hres := lruVictimGo_spec ft ts fuel (i + 1) (some (ts.getD i 0)) i
            (by
              refine ⟨by omega, hocc, rfl, ?_, ?_⟩
              · intro j hj hjocc
                rcases Nat.lt_or_ge j i with hji | hji
                · exact Nat.le_trans (Nat.le_of_lt hlt) (hmin j hji hjocc)
                · have : j = i := by omega
                  subst this
                  exact Nat.le_refl _
              · intro j hj hjocc hje
                rcases Nat.lt_or_ge j i with hji | hji
                · have := hmin j hji hjocc
                  omega
                · omega)
            (by intro hcon; cases hcon)
          exact ⟨hres.1, fun j hj => hres.2.1 j (by omega),
            fun j hj => hres.2.2 j (by omega)⟩
        · have hstep : lruVictimGo ft ts (fuel + 1) i (some o) best =
              lruVictimGo ft ts fuel (i + 1) (some o) best := by
            simp [lruVictimGo, hocc, hlt, -List.getD_eq_getElem?_getD]
          rw [hstep]
          have hres := lruVictimGo_spec ft ts fuel (i + 1) (some o) best
            (by
              refine ⟨by omega, hbocc, hbts, ?_, ?_⟩
              · intro j hj hjocc
                rcases Nat.lt_or_ge j i with hji | hji
                · exact hmin j hji hjocc
                · have : j = i := by omega
                  subst this
                  omega
              · intro j hj hjocc hje
                rcases Nat.lt_or_ge j i with hji | hji
                · exact htie j hji hjocc hje
                · omega)
            (by intro hcon; cases hcon)
          exact ⟨hres.1, fun j hj => hres.2.1 j (by omega),
            fun j hj => hres.2.2 j (by omega)⟩
      | false =>
        have hstep : lruVictimGo ft ts (fuel + 1) i (some o) best =
            lruVictimGo ft ts fuel (i + 1) (some o) best := by
          simp [lruVictimGo, hocc, -List.getD_eq_getElem?_getD]
        rw [hstep]
        have hres := lruVictimGo_spec ft ts fuel (i + 1) (some o) best
          (by
            refine ⟨by omega, hbocc, hbts, ?_, ?_⟩
            · intro j hj hjocc
              rcases Nat.lt_or_ge j i with hji | hji
              · exact hmin j hji hjocc
              · have : j = i := by omega
                subst this
                rw [hocc] at hjocc
                cases hjocc
            · intro j hj hjocc hje
              rcases Nat.lt_or_ge j i with hji | hji
              · exact htie j hji hjocc hje
              · have : j = i := by omega
                subst this
                rw [hocc] at hjocc
                cases hjocc)
          (by intro hcon; cases hcon)
        exact ⟨hres.1, fun j hj => hres.2.1 j (by omega),
          fun j hj => hres.2.2 j (by omega)⟩

/-- C3: for the LRU engine at an eviction (fault with no free frame), the
victim chosen by `_find_lru_victim` is an occupied frame whose last-access
stamp is the minimum among all occupied frames, and among frames sharing
that minimum stamp it is the one with the lowest index. -/
theorem lru_victim_is_min (s : LruState) (hfree : s.free_frames = [])
    (i0 : Nat) (hi0 : i0 < s.frames)
    (hocc0 : (s.frame_table.getD i0 none).isSome = true) :
    (s.frame_table.getD (findLruVictim s) none).isSome = true ∧
    (∀ j, j < s.frames → (s.frame_table.getD j none).isSome = true →
      s.access_time.getD (findLruVictim s) 0 ≤ s.access_time.getD j 0) ∧
    (∀ j, j < s.frames → (s.frame_table.getD j none).isSome = true →
      s.access_time.getD j 0 = s.access_time.getD (findLruVictim s) 0 →
      findLruVictim s ≤ j) := by
  have hres := lruVictimGo_spec s.frame_table s.access_time s.frames 0 none 0
    (by intro j hj; omega)
    (fun _ => ⟨i0, Nat.zero_le i0, by omega, hocc0⟩)
  exact ⟨hres.1, fun j hj => hres.2.1 j (by omega),
    fun j hj => hres.2.2 j (by omega)⟩

/-- Witness for C3: a full 2-frame LRU state where frame 0 (page 1, stamp 1)
is older than frame 1 (page 2, stamp 2); the victim is frame 0. -/
theorem lru_victim_is_min_witness :
    ((lruRun (lruInit 2) [(false, 1), (false, 2)]).getD (lruInit 2)).free_frames = [] ∧
    0 < ((lruRun (lruInit 2) [(false, 1), (false, 2)]).getD (lruInit 2)).frames ∧
    (((lruRun (lruInit 2) [(false, 1), (false, 2)]).getD
      (lruInit 2)).frame_table.getD 0 none).isSome = true ∧
    findLruVictim ((lruRun (lruInit 2) [(false, 1), (false, 2)]).getD (lruInit 2)) = 0 ∧
    (∀ j, j < ((lruRun (lruInit 2) [(false, 1), (false, 2)]).getD (lruInit 2)).frames →
      ((((lruRun (lruInit 2) [(false, 1), (false, 2)]).getD
        (lruInit 2)).frame_table.getD j none).isSome = true) →
      (((lruRun (lruInit 2) [(false, 1), (false, 2)]).getD (lruInit 2)).access_time.getD
          (findLruVictim ((lruRun (lruInit 2) [(false, 1), (false, 2)]).getD (lruInit 2))) 0 ≤
        ((lruRun (lruInit 2) [(false, 1), (false, 2)]).getD (lruInit 2)).access_time.getD j 0)) := by
  refine ⟨rfl, by decide, by decide, by decide, ?_⟩
  exact (lru_victim_is_min ((lruRun (lruInit 2) [(false, 1), (false, 2)]).getD (lruInit 2))
    rfl 0 (by decide) (by decide)).2.1

/-! ## C4 (corrected): constructors do not validate capacity -/

/-- C4 counterexample: constructing an engine with capacity 0 is not
rejected — every `__init__` returns normally (an `Except.error` would model
an exception escaping the constructor, and none occurs). -/
theorem capacity_zero_not_rejected :
    (clockInitZ 0).toOption.isSome = true ∧
    (lruInitZ 0).toOption.isSome = true ∧
    (randInitZ 0).toOption.isSome = true := ⟨rfl, rfl, rfl⟩

/-- C4 (amended): no engine validates its capacity argument.  For every
integer capacity, including ≤ 0, each constructor returns normally, storing
the raw argument and allocating `max(capacity, 0)` frame slots with all
counters zero. -/
theorem constructors_never_reject (f : Int) :
    (clockInitZ f).toOption.map
        (fun s => (s.frames_capacity, s.page_faults, s.disk_reads, s.disk_writes,
          s.frame_page.length)) = some (f, 0, 0, 0, f.toNat) ∧
    (lruInitZ f).toOption.map
        (fun s => (s.frames, s.page_faults, s.disk_reads, s.disk_writes,
          s.frame_table.length, s.free_frames.length)) =
      some (f, 0, 0, 0, f.toNat, f.toNat) ∧
    (randInitZ f).toOption.map
        (fun s => (s.page_faults, s.disk_reads, s.disk_writes,
          s.frames.length, s.free.length)) = some (0, 0, 0, f.toNat, f.toNat) := by
  refine ⟨?_, ?_, ?_⟩
  · simp [clockInitZ, Except.toOption]
  · simp [lruInitZ, Except.toOption]
  · simp [randInitZ, Except.toOption]

/-! ## C5 (corrected): the LRU clock advances once on a hit, twice on a fault -/

/-- C5 counterexample: one single faulting read advances `current_time` from
0 to 2 (once in `read_memory`, once more in `_handle_page_fault`), not to 1
as the claim requires. -/
theorem lru_time_once_per_access_counterexample :
    (lruInit 1).current_time = 0 ∧
    (lruReadMemory (lruInit 1) 5).map LruState.current_time = some 2 := ⟨rfl, rfl⟩

/-- C5 (amended): per call to `read_memory` or `write_memory` the LRU
logical clock advances by exactly 1 on a hit and by exactly 2 on a fault
(`read_memory`/`write_memory` increment it once, `_handle_page_fault`
increments it again). -/
theorem lru_current_time_step (s : LruState) (page : Int) :
    (∀ s1, lruReadMemory s page = some s1 →
      s1.current_time = s.current_time + (if (s.page_table page).isSome then 1 else 2)) ∧
    (∀ s1, lruWriteMemory s page = some s1 →
      s1.current_time = s.current_time + (if (s.page_table page).isSome then 1 else 2)) := by
  constructor
  · intro s1 h
    simp only [lruReadMemory] at h
    split at h
    · rename_i fi hmap
      cases h
      have hm : s.page_table page = some fi := hmap
      rw [hm]
      simp
    · rename_i hmap
      have hm : s.page_table page = none := hmap
      have hb := (lruFault_basic h).2.2.2.2.2
      have hb2 : s1.current_time = s.current_time + 1 + 1 := hb
      rw [hm]
      simp only [Option.isSome_none, Bool.false_eq_true, if_false]
      omega
  · intro s1 h
    simp only [lruWriteMemory] at h
    split at h
    · rename_i fi hmap
      cases h
      have hm : s.page_table page = some fi := hmap
      rw [hm]
      simp
    · rename_i hmap
      have hm : s.page_table page = none := hmap
      have hb := (lruFault_basic h).2.2.2.2.2
      have hb2 : s1.current_time = s.current_time + 1 + 1 := hb
      rw [hm]
      simp only [Option.isSome_none, Bool.false_eq_true, if_false]
      omega

/-- Witness for the amended C5: concrete fault (time 0 → 2) and concrete hit
(time 2 → 3) of the LRU engine at capacity 1. -/
theorem lru_current_time_step_witness :
    (lruReadMemory (lruInit 1) 5).map LruState.current_time = some 2 ∧
    (lruReadMemory ((lruRun (lruInit 1) [(false, 5)]).getD (lruInit 1)) 5).map
      LruState.current_time = some 3 := by
  constructor
  · have hr : lruReadMemory (lruInit 1) 5 = some _ := rfl
    have h := (lru_current_time_step (lruInit 1) 5).1 _ hr
    rw [hr]
    exact congrArg some (h.trans (by decide :
      ((lruInit 1).current_time +
        if ((lruInit 1).page_table 5).isSome = true then 1 else 2) = 2))
  · have hr : lruReadMemory ((lruRun (lruInit 1) [(false, 5)]).getD (lruInit 1)) 5 =
      some _ := rfl
    have h := (lru_current_time_step ((lruRun (lruInit 1) [(false, 5)]).getD (lruInit 1)) 5).1
      _ hr
    rw [hr]
    exact congrArg some (h.trans (by decide :
      (((lruRun (lruInit 1) [(false, 5)]).getD (lruInit 1)).current_time +
        if (((lruRun (lruInit 1) [(false, 5)]).getD (lruInit 1)).page_table 5).isSome = true
        then 1 else 2) = 3))

/-! ## C7: the Random victim is always an occupied frame -/

theorem randInstall_free (s : RandState) (idx : Nat) (page : Int) (w : Bool) :
    (randInstall s idx page w).free = s.free := by
  simp only [randInstall]
  split
  · split <;> rfl
  · rfl

theorem randInstall_num_frames (s : RandState) (idx : Nat) (page : Int) (w : Bool) :
    (randInstall s idx page w).num_frames = s.num_frames := by
  simp only [randInstall]
  split
  · split <;> rfl
  · rfl

theorem randInstall_getD_self {s : RandState} {idx : Nat} (page : Int) (w : Bool)
    (hlt : idx < s.frames.length) :
    ((randInstall s idx page w).frames.getD idx none).isSome = true := by
  simp only [randInstall]
  split
  · split
    · rename_i entry hentry
      rw [getD_set_self _ none (by simpa using hlt)]
      rfl
    · rw [getD_set_self _ none hlt]
      rfl
  · rw [getD_set_self _ none hlt]
    rfl

theorem randInstall_getD_ne {s : RandState} {idx i : Nat} (page : Int) (w : Bool)
    (hne : idx ≠ i) :
    (randInstall s idx page w).frames.getD i none = s.frames.getD i none := by
  simp only [randInstall]
  split
  · split
    · rename_i entry hentry
      rw [getD_set_ne _ none hne, getD_set_ne _ none hne]
    · rw [getD_set_ne _ none hne]
  · rw [getD_set_ne _ none hne]

theorem randEvict_getD_ne (s : RandState) {idx i : Nat} (hne : idx ≠ i) :
    (randEvict s idx).frames.getD i none = s.frames.getD i none := by
  simp only [randEvict]
  split
  · rfl
  · split
    · split
      · exact getD_set_ne _ none hne
      · exact getD_set_ne _ none hne
    · split
      · exact getD_set_ne _ none hne
      · exact getD_set_ne _ none hne

theorem randChooseLoop_occupied (frames : List (Option RandEntry)) :
    ∀ (rolls : List Nat) (idx : Nat), randChooseLoop frames rolls = some idx →
      (frames.getD idx none).isSome = true
  | [], idx, h => by cases h
  | r :: rest, idx, h => by
    simp only [randChooseLoop] at h
    split at h
    · rename_i hocc
      cases h
      exact hocc
    · exact randChooseLoop_occupied frames rest idx h

/-- One access of the Random engine preserves the bookkeeping invariant. -/
theorem randAccess_inv {n : Nat} {s s1 : RandState} {page : Int} {w : Bool}
    {rolls : List Nat} (hinv : RandInv n s) (h : randAccess s page w rolls = some s1) :
    RandInv n s1 := by
  obtain ⟨h1, h2, h3, h4, h5⟩ := hinv
  simp only [randAccess] at h
  split at h
  · rename_i idx hmap
    split at h
    · rename_i entry hentry
      cases h
      refine ⟨h1, by simpa using h2, h3, h4, ?_⟩
      intro i hi
      rcases eq_or_ne idx i with heq | hne
      · subst heq
        have hlt : idx < s.frames.length := lt_length_of_getD_some hentry
        rw [getD_set_self _ none hlt]
        have hfalse := h5 idx hi
        rw [hentry] at hfalse
        simp only [reduceCtorEq, false_iff] at hfalse
        simp [hfalse]
      · rw [getD_set_ne _ none hne]
        exact h5 i hi
    · cases h
      exact ⟨h1, h2, h3, h4, h5⟩
  · split at h
    · rename_i idx rest hfree
      cases h
      have hmem : idx ∈ s.free := by rw [hfree]; exact List.mem_cons_self idx rest
      have hnodup := h4
      rw [hfree] at hnodup
      have hidxn : idx < n := h3 idx hmem
      have hidxlen : idx < s.frames.length := by omega
      refine ⟨randInstall_num_frames _ _ _ _ |>.trans h1, ?_, ?_, ?_, ?_⟩
      · have : (randInstall { s with page_faults := s.page_faults + 1, free := rest }
            idx page w).frames.length = s.frames.length := by
          simp only [randInstall]
          split
          · split <;> simp
          · simp
        omega
      · intro i hi
        rw [randInstall_free] at hi
        exact h3 i (by rw [hfree]; exact List.mem_cons_of_mem idx hi)
      · rw [randInstall_free]
        exact hnodup.of_cons
      · intro i hi
        rw [randInstall_free]
        rcases eq_or_ne idx i with heq | hne
        · subst heq
          have hget := randInstall_getD_self (s := { s with page_faults := s.page_faults + 1, free := rest }) page w (by simpa using hidxlen)
          constructor
          · intro hnone
            rw [hnone] at hget
            cases hget
          · intro hmem2
            exact absurd hmem2 ((List.nodup_cons.mp hnodup).1)
        · rw [randInstall_getD_ne page w hne]
          have := h5 i hi
          rw [hfree] at this
          rw [show ({ s with page_faults := s.page_faults + 1, free := rest } : RandState).frames = s.frames from rfl]
          rw [this]
          simp [List.mem_cons, hne.symm]
    · rename_i hfree
      split at h
      · rename_i idx hvict
        cases h
        have hall : ∀ i, i < n → (s.frames.getD i none).isSome = true := by
          intro i hi
          have := h5 i hi
          rw [hfree] at this
          cases hx : s.frames.getD i none with
          | none => exact absurd (this.mp hx) (by simp)
          | some _ => rfl
        set sb : RandState := { s with page_faults := s.page_faults + 1 } with hsb
        have hevlen : (randEvict sb idx).frames.length = s.frames.length :=
          (randEvict_basic sb idx).2.1
        have hevfree : (randEvict sb idx).free = s.free :=
          (randEvict_basic sb idx).2.2.2.2.2
        have hevnum : (randEvict sb idx).num_frames = s.num_frames :=
          (randEvict_basic sb idx).1
        refine ⟨?_, ?_, ?_, ?_, ?_⟩
        · rw [randInstall_num_frames, hevnum]
          exact h1
        · have hil : (randInstall (randEvict sb idx) idx page w).frames.length =
              (randEvict sb idx).frames.length := by
            simp only [randInstall]
            split
            · split <;> simp
            · simp
          omega
        · intro i hi
          rw [randInstall_free, hevfree, hfree] at hi
          exact absurd hi (by simp)
        · rw [randInstall_free, hevfree, hfree]
          exact List.nodup_nil
        · intro i hi
          rw [randInstall_free, hevfree, hfree]
          rcases eq_or_ne idx i with heq | hne
          · subst heq
            have hget := randInstall_getD_self (s := randEvict sb idx) page w
              (show idx < (randEvict sb idx).frames.length by omega)
            constructor
            · intro hnone
              rw [hnone] at hget
              cases hget
            · intro hmem2
              exact absurd hmem2 (by simp)
          · rw [randInstall_getD_ne page w hne, randEvict_getD_ne _ hne]
            have hocc3 := hall i hi
            constructor
            · intro hnone
              rw [show sb.frames = s.frames from rfl] at hnone
              rw [hnone] at hocc3
              cases hocc3
            · intro hmem2
              exact absurd hmem2 (by simp)
      · cases h

/-- The invariant holds at `randInit n`. -/
theorem randInit_inv (n : Nat) : RandInv n (randInit n) := by
  refine ⟨rfl, by simp [randInit], ?_, ?_, ?_⟩
  · intro i hi
    simpa [randInit] using hi
  · exact List.nodup_range n
  · intro i hi
    simp only [randInit]
    rw [List.getD_eq_getElem?_getD, List.getElem?_replicate, if_pos hi]
    simp [List.mem_range, hi]

/-- C7: for the Random engine, on every reachable state where eviction is
invoked (free list empty), any victim produced by `_choose_victim` is an
occupied frame, and at capacity 1 the victim is frame 0 regardless of the
random draw sequence. -/
theorem rand_victim_occupied (n : Nat) (hn : 1 ≤ n) (tr : List (Bool × Int × List Nat))
    (s : RandState) (hrun : randRun (randInit n) tr = some s) (hfree : s.free = []) :
    (∀ rolls idx, randChooseVictim s rolls = some idx →
      (s.frames.getD idx none).isSome = true) ∧
    (n = 1 → ∀ rolls, randChooseVictim s rolls = some 0) := by
  have hinv : RandInv n s := randRun_preserves (P := RandInv n)
    (fun t p w rolls t1 hP hacc => randAccess_inv hP hacc) tr _ s (randInit_inv n) hrun
  obtain ⟨h1, _h2, _h3, _h4, h5⟩ := hinv
  have hocc : ∀ i, i < n → (s.frames.getD i none).isSome = true := by
    intro i hi
    have := h5 i hi
    rw [hfree] at this
    cases hx : s.frames.getD i none with
    | none => exact absurd (this.mp hx) (by simp)
    | some _ => rfl
  constructor
  · intro rolls idx hv
    simp only [randChooseVictim] at hv
    split at hv
    · cases hv
      exact hocc 0 (by omega)
    · exact randChooseLoop_occupied _ _ _ hv
  · intro hone rolls
    simp only [randChooseVictim]
    rw [h1, hone]
    simp

/-- Witness for C7: a full 1-frame Random engine; the victim is frame 0 and
that frame is occupied, for an arbitrary draw sequence. -/
theorem rand_victim_occupied_witness :
    ((randRun (randInit 1) [(true, 1, [])]).getD (randInit 1)).free = [] ∧
    randChooseVictim ((randRun (randInit 1) [(true, 1, [])]).getD (randInit 1)) [5] =
      some 0 ∧
    ((((randRun (randInit 1) [(true, 1, [])]).getD (randInit 1)).frames.getD 0
      none).isSome = true) := by
  refine ⟨rfl, ?_, ?_⟩
  · exact (rand_victim_occupied 1 (by decide) [(true, 1, [])] _ rfl rfl).2 rfl [5]
  · exact (rand_victim_occupied 1 (by decide) [(true, 1, [])] _ rfl rfl).1 [5] 0 rfl

/-! ## C9: hits change no counters, no occupancy, no mapping -/

theorem clockAccess_hit {s : ClockState} {page : Int} {w : Bool} {fuel : Nat} {frame : Nat}
    (hmap : s.page_to_frame page = some frame) :
    ∀ s1, clockAccess s page w fuel = some s1 →
      s1.page_faults = s.page_faults ∧ s1.disk_reads = s.disk_reads ∧
      s1.disk_writes = s.disk_writes ∧ s1.frame_page = s.frame_page ∧
      s1.page_to_frame = s.page_to_frame := by
  intro s1 h
  simp only [clockAccess, hmap] at h
  cases h
  exact ⟨rfl, rfl, rfl, rfl, rfl⟩

theorem lruRead_hit {s : LruState} {page : Int} {fi : Nat}
    (hmap : s.page_table page = some fi) :
    ∀ s1, lruReadMemory s page = some s1 →
      s1.page_faults = s.page_faults ∧ s1.disk_reads = s.disk_reads ∧
      s1.disk_writes = s.disk_writes ∧ s1.frame_table = s.frame_table ∧
      s1.page_table = s.page_table := by
  intro s1 h
  simp only [lruReadMemory, hmap] at h
  cases h
  exact ⟨rfl, rfl, rfl, rfl, rfl⟩

theorem lruWrite_hit {s : LruState} {page : Int} {fi : Nat}
    (hmap : s.page_table page = some fi) :
    ∀ s1, lruWriteMemory s page = some s1 →
      s1.page_faults = s.page_faults ∧ s1.disk_reads = s.disk_reads ∧
      s1.disk_writes = s.disk_writes ∧ s1.frame_table = s.frame_table ∧
      s1.page_table = s.page_table := by
  intro s1 h
  simp only [lruWriteMemory, hmap] at h
  cases h
  exact ⟨rfl, rfl, rfl, rfl, rfl⟩

theorem randAccess_hit {s : RandState} {page : Int} {w : Bool} {rolls : List Nat} {idx : Nat}
    (hmap : s.page_to_frame page = some idx) :
    ∀ s1, randAccess s page w rolls = some s1 →
      s1.page_faults = s.page_faults ∧ s1.disk_reads = s.disk_reads ∧
      s1.disk_writes = s.disk_writes ∧ s1.page_to_frame = s.page_to_frame ∧
      (∀ j, (s1.frames.getD j none).map RandEntry.page =
        (s.frames.getD j none).map RandEntry.page) := by
  intro s1 h
  simp only [randAccess, hmap] at h
  split at h
  · rename_i entry hentry
    cases h
    refine ⟨rfl, rfl, rfl, rfl, ?_⟩
    intro j
    rcases eq_or_ne idx j with heq | hne
    · subst heq
      rw [getD_set_self _ none (lt_length_of_getD_some hentry), hentry]
      rfl
    · rw [getD_set_ne _ none hne]
  · cases h
    exact ⟨rfl, rfl, rfl, rfl, fun j => rfl⟩

theorem clockRun_hits {page : Int} :
    ∀ (N : Nat) (s : ClockState) (frame : Nat), s.page_to_frame page = some frame →
      ∀ s1, clockRun s (List.replicate N (false, page)) = some s1 →
        s1.page_faults = s.page_faults ∧ s1.disk_reads = s.disk_reads ∧
        s1.disk_writes = s.disk_writes
  | 0, s, frame, hmap, s1, h => by
    simp only [List.replicate, clockRun] at h
    cases h
    exact ⟨rfl, rfl, rfl⟩
  | N + 1, s, frame, hmap, s1, h => by
    simp only [List.replicate, clockRun] at h
    cases hacc : clockAccess s page false (2 * s.frames_capacity) with
    | none => rw [hacc] at h; cases h
    | some s2 =>
      rw [hacc] at h
      obtain ⟨c1, c2, c3, _c4, c5⟩ := clockAccess_hit hmap s2 hacc
      have hmap2 : s2.page_to_frame page = some frame := by rw [c5]; exact hmap
      obtain ⟨d1, d2, d3⟩ := clockRun_hits N s2 frame hmap2 s1 h
      exact ⟨d1.trans c1, d2.trans c2, d3.trans c3⟩

theorem lruRun_hits {page : Int} :
    ∀ (N : Nat) (s : LruState) (fi : Nat), s.page_table page = some fi →
      ∀ s1, lruRun s (List.replicate N (false, page)) = some s1 →
        s1.page_faults = s.page_faults ∧ s1.disk_reads = s.disk_reads ∧
        s1.disk_writes = s.disk_writes
  | 0, s, fi, hmap, s1, h => by
    simp only [List.replicate, lruRun] at h
    cases h
    exact ⟨rfl, rfl, rfl⟩
  | N + 1, s, fi, hmap, s1, h => by
    simp only [List.replicate, lruRun] at h
    rw [if_neg (by decide : ¬ ((false : Bool) = true))] at h
    cases hacc : lruReadMemory s page with
    | none => rw [hacc] at h; cases h
    | some s2 =>
      rw [hacc] at h
      obtain ⟨c1, c2, c3, _c4, c5⟩ := lruRead_hit hmap s2 hacc
      have hmap2 : s2.page_table page = some fi := by rw [c5]; exact hmap
      obtain ⟨d1, d2, d3⟩ := lruRun_hits N s2 fi hmap2 s1 h
      exact ⟨d1.trans c1, d2.trans c2, d3.trans c3⟩

theorem randRun_hits {page : Int} :
    ∀ (N : Nat) (s : RandState) (idx : Nat), s.page_to_frame page = some idx →
      ∀ s1, randRun s (List.replicate N (false, page, [])) = some s1 →
        s1.page_faults = s.page_faults ∧ s1.disk_reads = s.disk_reads ∧
        s1.disk_writes = s.disk_writes
  | 0, s, idx, hmap, s1, h => by
    simp only [List.replicate, randRun] at h
    cases h
    exact ⟨rfl, rfl, rfl⟩
  | N + 1, s, idx, hmap, s1, h => by
    simp only [List.replicate, randRun] at h
    cases hacc : randAccess s page false [] with
    | none => rw [hacc] at h; cases h
    | some s2 =>
      rw [hacc] at h
      obtain ⟨c1, c2, c3, c4, _c5⟩ := randAccess_hit hmap s2 hacc
      have hmap2 : s2.page_to_frame page = some idx := by rw [c4]; exact hmap
      obtain ⟨d1, d2, d3⟩ := randRun_hits N s2 idx hmap2 s1 h
      exact ⟨d1.trans c1, d2.trans c2, d3.trans c3⟩

/-- C9: for every engine, an access to a resident page (a hit) leaves
`page_faults`, `disk_reads`, `disk_writes`, the occupancy of every frame
and the page-to-frame mapping unchanged (only dirty/recency metadata move);
consequently reading the same resident page N times changes no counter. -/
theorem hit_preserves_counters_and_residency :
    (∀ (s : ClockState) (page : Int) (w : Bool) (fuel frame : Nat) (s1 : ClockState),
      s.page_to_frame page = some frame → clockAccess s page w fuel = some s1 →
      s1.page_faults = s.page_faults ∧ s1.disk_reads = s.disk_reads ∧
      s1.disk_writes = s.disk_writes ∧ s1.frame_page = s.frame_page ∧
      s1.page_to_frame = s.page_to_frame) ∧
    (∀ (s : LruState) (page : Int) (fi : Nat) (s1 : LruState),
      s.page_table page = some fi → lruReadMemory s page = some s1 →
      s1.page_faults = s.page_faults ∧ s1.disk_reads = s.disk_reads ∧
      s1.disk_writes = s.disk_writes ∧ s1.frame_table = s.frame_table ∧
      s1.page_table = s.page_table) ∧
    (∀ (s : LruState) (page : Int) (fi : Nat) (s1 : LruState),
      s.page_table page = some fi → lruWriteMemory s page = some s1 →
      s1.page_faults = s.page_faults ∧ s1.disk_reads = s.disk_reads ∧
      s1.disk_writes = s.disk_writes ∧ s1.frame_table = s.frame_table ∧
      s1.page_table = s.page_table) ∧
    (∀ (s : RandState) (page : Int) (w : Bool) (rolls : List Nat) (idx : Nat)
      (s1 : RandState),
      s.page_to_frame page = some idx → randAccess s page w rolls = some s1 →
      s1.page_faults = s.page_faults ∧ s1.disk_reads = s.disk_reads ∧
      s1.disk_writes = s.disk_writes ∧ s1.page_to_frame = s.page_to_frame ∧
      (∀ j, (s1.frames.getD j none).map RandEntry.page =
        (s.frames.getD j none).map RandEntry.page)) ∧
    (∀ (N : Nat) (s : ClockState) (page : Int) (frame : Nat) (s1 : ClockState),
      s.page_to_frame page = some frame →
      clockRun s (List.replicate N (false, page)) = some s1 →
      s1.page_faults = s.page_faults ∧ s1.disk_reads = s.disk_reads ∧
      s1.disk_writes = s.disk_writes) ∧
    (∀ (N : Nat) (s : LruState) (page : Int) (fi : Nat) (s1 : LruState),
      s.page_table page = some fi →
      lruRun s (List.replicate N (false, page)) = some s1 →
      s1.page_faults = s.page_faults ∧ s1.disk_reads = s.disk_reads ∧
      s1.disk_writes = s.disk_writes) ∧
    (∀ (N : Nat) (s : RandState) (page : Int) (idx : Nat) (s1 : RandState),
      s.page_to_frame page = some idx →
      randRun s (List.replicate N (false, page, [])) = some s1 →
      s1.page_faults = s.page_faults ∧ s1.disk_reads = s.disk_reads ∧
      s1.disk_writes = s.disk_writes) := by
  refine ⟨?_, ?_, ?_, ?_, ?_, ?_, ?_⟩
  · intro s page w fuel frame s1 hmap h
    exact clockAccess_hit hmap s1 h
  · intro s page fi s1 hmap h
    exact lruRead_hit hmap s1 h
  · intro s page fi s1 hmap h
    exact lruWrite_hit hmap s1 h
  · intro s page w rolls idx s1 hmap h
    exact randAccess_hit hmap s1 h
  · intro N s page frame s1 hmap h
    exact clockRun_hits N s frame hmap s1 h
  · intro N s page fi s1 hmap h
    exact lruRun_hits N s fi hmap s1 h
  · intro N s page idx s1 hmap h
    exact randRun_hits N s idx hmap s1 h

/-- Witness for C9: on a 2-frame state holding dirty page 7 (the state
reached by one faulting write, as the first three conjuncts check), a write
hit, a read hit, and three repeated reads leave every counter at
(1 fault, 1 read, 0 writes) for all three engines. -/
theorem hit_preserves_counters_witness :
    clockRun (clockInit 2) [(true, 7)] = some clockHitExample ∧
    lruRun (lruInit 2) [(true, 7)] = some lruHitExample ∧
    randRun (randInit 2) [(true, 7, [])] = some randHitExample ∧
    (clockAccess clockHitExample 7 true 4).map
      (fun t => (t.page_faults, t.disk_reads, t.disk_writes)) = some (1, 1, 0) ∧
    (lruReadMemory lruHitExample 7).map
      (fun t => (t.page_faults, t.disk_reads, t.disk_writes)) = some (1, 1, 0) ∧
    (lruWriteMemory lruHitExample 7).map
      (fun t => (t.page_faults, t.disk_reads, t.disk_writes)) = some (1, 1, 0) ∧
    (randAccess randHitExample 7 true []).map
      (fun t => (t.page_faults, t.disk_reads, t.disk_writes)) = some (1, 1, 0) ∧
    (clockRun clockHitExample (List.replicate 3 (false, 7))).map
      (fun t => (t.page_faults, t.disk_reads, t.disk_writes)) = some (1, 1, 0) ∧
    (lruRun lruHitExample (List.replicate 2 (false, 7))).map
      (fun t => (t.page_faults, t.disk_reads, t.disk_writes)) = some (1, 1, 0) ∧
    (randRun randHitExample (List.replicate 3 (false, 7, []))).map
      (fun t => (t.page_faults, t.disk_reads, t.disk_writes)) = some (1, 1, 0) := by
  refine ⟨rfl, rfl, rfl, ?_, ?_, ?_, ?_, ?_, ?_, ?_⟩
  · have hacc : clockAccess clockHitExample 7 true 4 = some _ := rfl
    have h := hit_preserves_counters_and_residency.1 clockHitExample 7 true 4 0 _ rfl hacc
    rw [hacc]
    exact congrArg some (by rw [h.1, h.2.1, h.2.2.1]; rfl)
  · have hacc : lruReadMemory lruHitExample 7 = some _ := rfl
    have h := hit_preserves_counters_and_residency.2.1 lruHitExample 7 0 _ rfl hacc
    rw [hacc]
    exact congrArg some (by rw [h.1, h.2.1, h.2.2.1]; rfl)
  · have hacc : lruWriteMemory lruHitExample 7 = some _ := rfl
    have h := hit_preserves_counters_and_residency.2.2.1 lruHitExample 7 0 _ rfl hacc
    rw [hacc]
    exact congrArg some (by rw [h.1, h.2.1, h.2.2.1]; rfl)
  · have hacc : randAccess randHitExample 7 true [] = some _ := rfl
    have h := hit_preserves_counters_and_residency.2.2.2.1 randHitExample 7 true [] 0 _ rfl hacc
    rw [hacc]
    exact congrArg some (by rw [h.1, h.2.1, h.2.2.1]; rfl)
  · have hrun : clockRun clockHitExample (List.replicate 3 (false, 7)) = some _ := rfl
    have h := hit_preserves_counters_and_residency.2.2.2.2.1 3 clockHitExample 7 0 _ rfl hrun
    rw [hrun]
    exact congrArg some (by rw [h.1, h.2.1, h.2.2]; rfl)
  · have hrun : lruRun lruHitExample (List.replicate 2 (false, 7)) = some _ := rfl
    have h := hit_preserves_counters_and_residency.2.2.2.2.2.1 2 lruHitExample 7 0 _ rfl hrun
    rw [hrun]
    exact congrArg some (by rw [h.1, h.2.1, h.2.2]; rfl)
  · have hrun : randRun randHitExample (List.replicate 3 (false, 7, [])) = some _ := rfl
    have h := hit_preserves_counters_and_residency.2.2.2.2.2.2 3 randHitExample 7 0 _ rfl hrun
    rw [hrun]
    exact congrArg some (by rw [h.1, h.2.1, h.2.2]; rfl)

end MMUSim
